import Mathlib

/-!
Shallow embedding of the `workdays` Rust library (src/lib.rs) and proofs of
the specification claims.

Modelling conventions:
* `chrono::Weekday` becomes the inductive `Weekday`.
* `chrono::NaiveDate` becomes `Int`, the number of days since 1970-01-01
  (proleptic Gregorian).  Adding `Duration::days(1)` is `+ 1`, the order on
  dates is the order on `Int`, and `a.signed_duration_since b` measured in
  whole days (`num_days`) is `a - b`.  `NaiveDate::weekday` becomes
  `weekday : Int -> Weekday`; 1970-01-01 was a Thursday, so day number 0
  maps to Thursday and the mapping is periodic with period 7.
* `HashSet` becomes `Finset`.
* `Result<T, String>` becomes `Except String T`; `chrono::Duration` in the
  result of `compute_end_date` is represented by its `num_days` as `Int`.
* The `&mut self` methods become state-passing functions returning the new
  calendar (paired with the `Result` value for `set_work_days`).
-/

namespace Workdays

/-- Weekday enumeration, mirroring `chrono::Weekday`. -/
inductive Weekday where
  | mon
  | tue
  | wed
  | thu
  | fri
  | sat
  | sun
deriving DecidableEq, Repr

/-- Weekday of a residue mod 7 of a day number (epoch 1970-01-01 = Thursday). -/
def wdOfNat (n : Nat) : Weekday :=
  match n with
  | 0 => .thu
  | 1 => .fri
  | 2 => .sat
  | 3 => .sun
  | 4 => .mon
  | 5 => .tue
  | _ => .wed

/-- Weekday of a day number (model of `NaiveDate::weekday`). -/
def weekday (d : Int) : Weekday := wdOfNat (d % 7).toNat

/-- Index of a weekday in the epoch-anchored week (inverse of `wdOfNat` below 7). -/
def wdToNat : Weekday → Nat
  | .thu => 0
  | .fri => 1
  | .sat => 2
  | .sun => 3
  | .mon => 4
  | .tue => 5
  | .wed => 6

/-- The work calendar: a set of work weekdays and a set of holiday dates
(mirrors `struct WorkCalendar`). -/
structure WorkCalendar where
  work_days : Finset Weekday
  holidays : Finset Int
deriving DecidableEq

/-- Default calendar from `WorkCalendar::new()`: Monday to Friday, no holidays. -/
def WorkCalendar.new : WorkCalendar :=
  ⟨{Weekday.mon, Weekday.tue, Weekday.wed, Weekday.thu, Weekday.fri}, ∅⟩

/-- Membership test `is_work_day` from the source. -/
def is_work_day (cal : WorkCalendar) (day : Weekday) : Bool :=
  decide (day ∈ cal.work_days)

/-- Membership test `is_holiday` from the source. -/
def is_holiday (cal : WorkCalendar) (date : Int) : Bool :=
  decide (date ∈ cal.holidays)

/-- The condition `self.is_work_day(&d.weekday()) && !self.is_holiday(&d)`
that both `compute_end_date` and `work_days_between` test on each date. -/
def counts_as_worked (cal : WorkCalendar) (d : Int) : Bool :=
  is_work_day cal (weekday d) && !is_holiday cal d

/-- Mutation `add_work_day` (state passing). -/
def add_work_day (cal : WorkCalendar) (day : Weekday) : WorkCalendar :=
  ⟨insert day cal.work_days, cal.holidays⟩

/-- Mutation `remove_work_day` (state passing). -/
def remove_work_day (cal : WorkCalendar) (day : Weekday) : WorkCalendar :=
  ⟨cal.work_days.erase day, cal.holidays⟩

/-- Mutation `add_holiday` (state passing). -/
def add_holiday (cal : WorkCalendar) (date : Int) : WorkCalendar :=
  ⟨cal.work_days, insert date cal.holidays⟩

/-- Mutation `remove_holiday` (state passing). -/
def remove_holiday (cal : WorkCalendar) (date : Int) : WorkCalendar :=
  ⟨cal.work_days, cal.holidays.erase date⟩

/-- Model of Rust `str::to_lowercase` (character-wise lowering; the inputs the
program compares against are ASCII). -/
def to_lowercase (s : String) : String := ⟨s.data.map Char.toLower⟩

/-- Model of Rust `str::trim`: drop whitespace from both ends. -/
def trimChars (l : List Char) : List Char :=
  (((l.dropWhile Char.isWhitespace).reverse).dropWhile Char.isWhitespace).reverse

/-- String version of `trimChars`. -/
def trim (s : String) : String := ⟨trimChars s.data⟩

/-- Model of Rust `str::split(c)`: split a character list at every occurrence
of `c`; `n` separators yield `n + 1` pieces, so the empty string yields
one empty piece. -/
def splitOnChar (c : Char) : List Char → List (List Char)
  | [] => [[]]
  | ch :: rest =>
    let r := splitOnChar c rest
    if ch = c then [] :: r
    else
      match r with
      | [] => [[ch]]
      | g :: gs => (ch :: g) :: gs

/-- The weekday-name parser `parse_weekday` from the source: lower-case, then
match the full English name or the 3-letter abbreviation of each weekday. -/
def parse_weekday (day : String) : Option Weekday :=
  let s := to_lowercase day
  if s = "monday" ∨ s = "mon" then some .mon
  else if s = "tuesday" ∨ s = "tue" then some .tue
  else if s = "wednesday" ∨ s = "wed" then some .wed
  else if s = "thursday" ∨ s = "thu" then some .thu
  else if s = "friday" ∨ s = "fri" then some .fri
  else if s = "saturday" ∨ s = "sat" then some .sat
  else if s = "sunday" ∨ s = "sun" then some .sun
  else none

/-- Mutation `set_work_days` from the source: split the input on commas, trim
and parse each item, drop failures; error (leaving the calendar unchanged)
when no item parses, otherwise replace the work-day set. -/
def set_work_days (cal : WorkCalendar) (days : String) :
    Except String Unit × WorkCalendar :=
  let new_work_days : Finset Weekday :=
    ((splitOnChar ',' days.data).filterMap
      (fun day => parse_weekday (trim ⟨day⟩))).toFinset
  if new_work_days = ∅ then ⟨.error "No valid work days provided", cal⟩
  else ⟨.ok (), ⟨new_work_days, cal.holidays⟩⟩

/-- Loop body of `work_days_between`: count the worked dates among the `n`
consecutive dates starting at `d`. -/
def countFrom (cal : WorkCalendar) : Int → Nat → Int
  | _, 0 => 0
  | d, n + 1 => (if counts_as_worked cal d then 1 else 0) + countFrom cal (d + 1) n

/-- The query `work_days_between` from the source: walk from `start_date` to
`end_date` inclusive, counting worked dates; an empty range counts 0. -/
def work_days_between (cal : WorkCalendar) (start_date end_date : Int) : Int :=
  countFrom cal start_date (end_date + 1 - start_date).toNat

/-- Bounded day-by-day scan: starting at `d`, advance one day at a time until
a worked date is found or the fuel runs out (fuel exhaustion returns the
current date; with the fuel used by `nextUsable` and a non-empty work-day
set it is proved unreachable). -/
def nextUsableAux (cal : WorkCalendar) : Nat → Int → Int
  | 0, d => d
  | fuel + 1, d =>
    if counts_as_worked cal d then d else nextUsableAux cal fuel (d + 1)

/-- First worked date strictly after `d`.  Within any `7 * (holidays.card + 1)`
consecutive dates at least one is worked when `work_days` is non-empty, so
this fuel always suffices.  This realizes one round of the `while` loop of
`compute_end_date`: advance one day at a time until a date is consumed. -/
def nextUsable (cal : WorkCalendar) (d : Int) : Int :=
  nextUsableAux cal (7 * (cal.holidays.card + 1)) (d + 1)

/-- The `while remaining_days > 0` loop of `compute_end_date`: each of the `r`
rounds advances day by day to the next worked date (which decrements
`remaining_days`). -/
def walk (cal : WorkCalendar) : Int → Nat → Int
  | current, 0 => current
  | current, r + 1 => walk cal (nextUsable cal current) r

/-- The algorithm `compute_end_date` from the source: reject a negative count,
then an empty work-day set; consume the start date if it is worked; then
walk forward one work day per remaining count.  The `i64` variable
`remaining_days` can start at `-1` (count 0 with a worked start date), in
which case the loop body never runs, hence the `Int.toNat` clamp. -/
def compute_end_date (cal : WorkCalendar) (start_date days_worked : Int) :
    Except String (Int × Int) :=
  if days_worked < 0 then .error "days_worked must be non-negative"
  else if cal.work_days = ∅ then .error "No work days defined"
  else
    let remaining : Int :=
      if counts_as_worked cal start_date then days_worked - 1 else days_worked
    let current := walk cal start_date remaining.toNat
    .ok (current, current - start_date)

/-- Deserialization intermediate `WorkCalendarConfig`: two optional lists of
strings. -/
structure WorkCalendarConfig where
  work_days : Option (List String)
  holidays : Option (List String)

/-- Gregorian leap-year test. -/
def is_leap_year (y : Nat) : Bool :=
  y % 4 = 0 && (y % 100 ≠ 0 || y % 400 = 0)

/-- Days in a month of the proleptic Gregorian calendar. -/
def days_in_month (y m : Nat) : Nat :=
  if m = 2 then (if is_leap_year y then 29 else 28)
  else if m = 4 ∨ m = 6 ∨ m = 9 ∨ m = 11 then 30
  else 31

/-- Digit-string to number; `none` unless non-empty and all digits. -/
def parseNatDigits (l : List Char) : Option Nat :=
  if l ≠ [] ∧ l.all Char.isDigit then
    some (l.foldl (fun acc c => acc * 10 + (c.toNat - 48)) 0)
  else none

/-- Day number since 1970-01-01 of a Gregorian date (standard civil-days
formula). -/
def days_from_civil (y m d : Nat) : Int :=
  let yAdj : Int := if m ≤ 2 then (y : Int) - 1 else (y : Int)
  let era : Int := yAdj / 400
  let yoe : Int := yAdj - era * 400
  let mp : Int := ((m : Int) + 9) % 12
  let doy : Int := (153 * mp + 2) / 5 + ((d : Int) - 1)
  let doe : Int := yoe * 365 + yoe / 4 - yoe / 100 + doy
  era * 146097 + doe - 719468

/-- Model of `NaiveDate::parse_from_str(s, "%Y-%m-%d")` for the dates the
configuration format carries (year, month, day digit groups separated by
dashes, calendar-validated); invalid dates yield `none`. -/
def parse_date (s : String) : Option Int :=
  match splitOnChar '-' s.data with
  | [ys, ms, ds] =>
    match parseNatDigits ys, parseNatDigits ms, parseNatDigits ds with
    | some y, some m, some d =>
      if 1 ≤ m ∧ m ≤ 12 ∧ 1 ≤ d ∧ d ≤ days_in_month y m then
        some (days_from_civil y m d)
      else none
    | _, _, _ => none
  | _ => none

/-- The conversion `From<WorkCalendarConfig> for WorkCalendar`: start from the
default calendar; if the work-day list is present replace `work_days` with
whatever parses (possibly the empty set); if the holiday list is present
replace `holidays` with whatever parses as a date. -/
def from_config (config : WorkCalendarConfig) : WorkCalendar :=
  let calendar := WorkCalendar.new
  let calendar :=
    match config.work_days with
    | some days => ⟨(days.filterMap (fun day => parse_weekday day)).toFinset,
                    calendar.holidays⟩
    | none => calendar
  match config.holidays with
  | some dates =>
    ⟨calendar.work_days,
     (dates.filterMap (fun date_str => parse_date date_str)).toFinset⟩
  | none => calendar

/-- Modelled from the spec: the count of dates `d` with `s ≤ d ≤ e` whose
weekday is in `work_days` and which are not in `holidays` (the description
of `work_days_between` in the specification). -/
def spec_work_day_count (cal : WorkCalendar) (s e : Int) : Nat :=
  ((Finset.Icc s e).filter
    (fun d => weekday d ∈ cal.work_days ∧ d ∉ cal.holidays)).card

/-- Modelled from the spec: the table of the 14 recognized weekday tokens
(full English name and 3-letter abbreviation of each weekday). -/
def weekday_tokens : List (String × Weekday) :=
  [("monday", .mon), ("mon", .mon),
   ("tuesday", .tue), ("tue", .tue),
   ("wednesday", .wed), ("wed", .wed),
   ("thursday", .thu), ("thu", .thu),
   ("friday", .fri), ("fri", .fri),
   ("saturday", .sat), ("sat", .sat),
   ("sunday", .sun), ("sun", .sun)]

/-- Modelled from the spec: first-match lookup in a token table. -/
def lookup_token (s : String) : List (String × Weekday) → Option Weekday
  | [] => none
  | (k, v) :: rest => if s = k then some v else lookup_token s rest

/-- Equality of `Except` results is decidable componentwise. -/
instance {ε α : Type} [DecidableEq ε] [DecidableEq α] : DecidableEq (Except ε α)
  | .error a, .error b =>
    if h : a = b then .isTrue (by rw [h]) else .isFalse (by simp [h])
  | .error _, .ok _ => .isFalse (by simp)
  | .ok _, .error _ => .isFalse (by simp)
  | .ok a, .ok b =>
    if h : a = b then .isTrue (by rw [h]) else .isFalse (by simp [h])

/-- Characterization of `weekday` through the index `wdToNat`. -/
lemma weekday_eq_iff (d : Int) (w : Weekday) :
    weekday d = w ↔ (d % 7).toNat = wdToNat w := by
  have h : (d % 7).toNat = 0 ∨ (d % 7).toNat = 1 ∨ (d % 7).toNat = 2 ∨
      (d % 7).toNat = 3 ∨ (d % 7).toNat = 4 ∨ (d % 7).toNat = 5 ∨
      (d % 7).toNat = 6 := by omega
  simp only [weekday]
  rcases h with h | h | h | h | h | h | h <;> rw [h] <;> cases w <;> decide

/-- The weekday function is periodic with period 7. -/
lemma weekday_period (x : Int) (i : Nat) : weekday (x + 7 * i) = weekday x := by
  simp only [weekday]
  congr 1
  omega

/-- Every weekday occurs within any 7 consecutive dates. -/
lemma exists_weekday_offset (d : Int) (w : Weekday) :
    ∃ r : Nat, r < 7 ∧ weekday (d + r) = w := by
  have hw : wdToNat w < 7 := by cases w <;> decide
  refine ⟨(wdToNat w + 7 - (d % 7).toNat) % 7, by omega, ?_⟩
  rw [weekday_eq_iff]
  omega

/-- With a non-empty work-day set, among any `7 * (holidays.card + 1)`
consecutive dates at least one counts as worked: each block of 7 dates
contains an allowed weekday, and the finitely many holidays cannot cover
all `holidays.card + 1` such candidates. -/
lemma exists_worked_in_window (cal : WorkCalendar) (hne : cal.work_days ≠ ∅)
    (d : Int) :
    ∃ j : Nat, j < 7 * (cal.holidays.card + 1) ∧
      counts_as_worked cal (d + j) = true := by
  obtain ⟨w, hw⟩ := Finset.nonempty_iff_ne_empty.mpr hne
  obtain ⟨r, hr7, hrw⟩ := exists_weekday_offset d w
  by_contra hno
  push_neg at hno
  simp only [ne_eq, Bool.not_eq_true] at hno
  have hhol : ∀ i : Nat, i < cal.holidays.card + 1 →
      d + r + 7 * (i : Int) ∈ cal.holidays := by
    intro i hi
    have hj : r + 7 * i < 7 * (cal.holidays.card + 1) := by omega
    have hcf := hno (r + 7 * i) hj
    have hsh : d + ((r + 7 * i : Nat) : Int) = d + (r : Int) + 7 * (i : Int) := by
      push_cast
      ring
    rw [hsh] at hcf
    have hwd : weekday (d + (r : Int) + 7 * (i : Int)) = w := by
      have hp := weekday_period (d + (r : Int)) i
      rw [show d + (r : Int) + 7 * (i : Int) = d + (r : Int) + 7 * (i : Nat) from rfl]
      rw [hp]
      exact hrw
    have hmem : weekday (d + (r : Int) + 7 * (i : Int)) ∈ cal.work_days := by
      rw [hwd]; exact hw
    simpa [counts_as_worked, is_work_day, is_holiday, hmem] using hcf
  have hsub : (Finset.range (cal.holidays.card + 1)).image
      (fun i : Nat => d + (r : Int) + 7 * (i : Int)) ⊆ cal.holidays := by
    intro x hx
    simp only [Finset.mem_image, Finset.mem_range] at hx
    obtain ⟨i, hi, rfl⟩ := hx
    exact hhol i hi
  have hcard : ((Finset.range (cal.holidays.card + 1)).image
      (fun i : Nat => d + (r : Int) + 7 * (i : Int))).card =
      cal.holidays.card + 1 := by
    rw [Finset.card_image_of_injOn, Finset.card_range]
    intro a _ b _ hab
    have h7 : d + (r : Int) + 7 * (a : Int) = d + (r : Int) + 7 * (b : Int) := hab
    omega
  have hle := Finset.card_le_card hsub
  omega

/-- Behaviour of the bounded scan `nextUsableAux` when a worked date exists
within the fuel window: it stops at the first one. -/
lemma nextUsableAux_spec (cal : WorkCalendar) :
    ∀ (fuel : Nat) (start : Int),
      (∃ j : Nat, j < fuel ∧ counts_as_worked cal (start + j) = true) →
      ∃ j : Nat, j < fuel ∧ nextUsableAux cal fuel start = start + j ∧
        counts_as_worked cal (start + j) = true ∧
        ∀ i : Nat, i < j → counts_as_worked cal (start + i) = false := by
  intro fuel
  induction fuel with
  | zero =>
    intro start h
    obtain ⟨j, hj, _⟩ := h
    omega
  | succ fuel ih =>
    intro start h
    by_cases hc : counts_as_worked cal start = true
    · refine ⟨0, by omega, ?_, by simpa using hc, by omega⟩
      simp [nextUsableAux, hc]
    · have hcf : counts_as_worked cal start = false := by
        simpa using hc
      obtain ⟨j, hj, hcj⟩ := h
      have hj0 : j ≠ 0 := by
        rintro rfl
        simp only [Nat.cast_zero, add_zero] at hcj
        exact hc hcj
      obtain ⟨j', rfl⟩ : ∃ j', j = j' + 1 := ⟨j - 1, by omega⟩
      have hsh : ∀ k : Nat, start + ((k + 1 : Nat) : Int) = (start + 1) + (k : Int) := by
        intro k
        push_cast
        ring
      have hex : ∃ j2 : Nat, j2 < fuel ∧
          counts_as_worked cal ((start + 1) + j2) = true := by
        refine ⟨j', by omega, ?_⟩
        rw [← hsh j']
        exact hcj
      obtain ⟨j0, hj0f, heq, hcw, hmin⟩ := ih (start + 1) hex
      refine ⟨j0 + 1, by omega, ?_, ?_, ?_⟩
      · rw [show nextUsableAux cal (fuel + 1) start =
            nextUsableAux cal fuel (start + 1) by simp [nextUsableAux, hcf]]
        rw [heq, hsh j0]
      · rw [hsh j0]
        exact hcw
      · intro i hi
        match i with
        | 0 => simpa using hcf
        | i' + 1 =>
          rw [hsh i']
          exact hmin i' (by omega)

/-- The next worked date strictly after `d` (non-empty work-day set): it is
greater than `d`, it counts as worked, and nothing strictly between is
worked. -/
lemma nextUsable_spec (cal : WorkCalendar) (hne : cal.work_days ≠ ∅) (d : Int) :
    d < nextUsable cal d ∧ counts_as_worked cal (nextUsable cal d) = true ∧
      ∀ x : Int, d < x → x < nextUsable cal d → counts_as_worked cal x = false := by
  obtain ⟨j, hj, heq, hcw, hmin⟩ :=
    nextUsableAux_spec cal (7 * (cal.holidays.card + 1)) (d + 1)
      (exists_worked_in_window cal hne (d + 1))
  rw [nextUsable, heq]
  refine ⟨by omega, hcw, ?_⟩
  intro x hx1 hx2
  have h := hmin ((x - (d + 1)).toNat) (by omega)
  rwa [show d + 1 + (((x - (d + 1)).toNat : Nat) : Int) = x by omega] at h

/-- The walk never moves backwards. -/
lemma walk_ge (cal : WorkCalendar) (hne : cal.work_days ≠ ∅) :
    ∀ (r : Nat) (c : Int), c ≤ walk cal c r := by
  intro r
  induction r with
  | zero => intro c; simp [walk]
  | succ r ih =>
    intro c
    have h1 := (nextUsable_spec cal hne c).1
    have h2 := ih (nextUsable cal c)
    simp only [walk]
    omega

/-- With at least one round to go, the walk moves strictly forward. -/
lemma walk_gt (cal : WorkCalendar) (hne : cal.work_days ≠ ∅)
    (r : Nat) (c : Int) (hr : 1 ≤ r) : c < walk cal c r := by
  obtain ⟨r', rfl⟩ : ∃ r', r = r' + 1 := ⟨r - 1, by omega⟩
  have h1 := (nextUsable_spec cal hne c).1
  have h2 := walk_ge cal hne r' (nextUsable cal c)
  simp only [walk]
  omega

/-- The walk is monotone in the number of rounds. -/
lemma walk_mono (cal : WorkCalendar) (hne : cal.work_days ≠ ∅) :
    ∀ (r k : Nat) (c : Int), walk cal c r ≤ walk cal c (r + k) := by
  intro r
  induction r with
  | zero =>
    intro k c
    simpa [walk] using walk_ge cal hne k c
  | succ r ih =>
    intro k c
    rw [show r + 1 + k = (r + k) + 1 by omega]
    simp only [walk]
    exact ih k (nextUsable cal c)

/-- Starting at a worked date, the walk always lands on a worked date. -/
lemma walk_worked (cal : WorkCalendar) (hne : cal.work_days ≠ ∅) :
    ∀ (r : Nat) (c : Int), counts_as_worked cal c = true →
      counts_as_worked cal (walk cal c r) = true := by
  intro r
  induction r with
  | zero => intro c hc; simpa [walk] using hc
  | succ r ih =>
    intro c _
    simp only [walk]
    exact ih (nextUsable cal c) (nextUsable_spec cal hne c).2.1

/-- Number of worked dates in the inclusive range from `a` to `b`. -/
def count_worked (cal : WorkCalendar) (a b : Int) : Nat :=
  ((Finset.Icc a b).filter (fun x => counts_as_worked cal x = true)).card

/-- Counting a one-date range. -/
lemma count_worked_self (cal : WorkCalendar) (c : Int) :
    count_worked cal c c = if counts_as_worked cal c then 1 else 0 := by
  by_cases h : counts_as_worked cal c = true <;>
    simp [count_worked, Finset.Icc_self, Finset.filter_singleton, h]

/-- Splitting an inclusive count at an intermediate point. -/
lemma count_worked_split (cal : WorkCalendar) (a m b : Int)
    (h1 : a - 1 ≤ m) (h2 : m ≤ b) :
    count_worked cal a b = count_worked cal a m + count_worked cal (m + 1) b := by
  have hu : Finset.Icc a b = Finset.Icc a m ∪ Finset.Icc (m + 1) b := by
    ext x
    simp only [Finset.mem_Icc, Finset.mem_union]
    omega
  have hd : Disjoint (Finset.Icc a m) (Finset.Icc (m + 1) b) := by
    rw [Finset.disjoint_left]
    intro x hx hx2
    simp only [Finset.mem_Icc] at hx hx2
    omega
  rw [count_worked, hu, Finset.filter_union,
    Finset.card_union_of_disjoint (Finset.disjoint_filter_filter hd)]
  rfl

/-- A range containing no worked date counts zero. -/
lemma count_worked_none (cal : WorkCalendar) (a b : Int)
    (h : ∀ x : Int, a ≤ x → x ≤ b → counts_as_worked cal x = false) :
    count_worked cal a b = 0 := by
  rw [count_worked, Finset.card_eq_zero, Finset.filter_eq_empty_iff]
  intro x hx
  simp only [Finset.mem_Icc] at hx
  simp [h x hx.1 hx.2]

/-- Starting at a worked date, a walk of `r` rounds spans exactly `r + 1`
worked dates inclusive of both ends. -/
lemma count_walk (cal : WorkCalendar) (hne : cal.work_days ≠ ∅) :
    ∀ (r : Nat) (c : Int), counts_as_worked cal c = true →
      count_worked cal c (walk cal c r) = r + 1 := by
  intro r
  induction r with
  | zero =>
    intro c hc
    simp [walk, count_worked_self, hc]
  | succ r ih =>
    intro c hc
    obtain ⟨hlt, hN, hmin⟩ := nextUsable_spec cal hne c
    have hge := walk_ge cal hne r (nextUsable cal c)
    simp only [walk]
    rw [count_worked_split cal c (nextUsable cal c - 1)
      (walk cal (nextUsable cal c) r) (by omega) (by omega)]
    have h0 : count_worked cal (c + 1) (nextUsable cal c - 1) = 0 :=
      count_worked_none cal _ _ (fun x hx1 hx2 => hmin x (by omega) (by omega))
    have hcm : count_worked cal c (nextUsable cal c - 1) = 1 := by
      rw [count_worked_split cal c c (nextUsable cal c - 1) (by omega) (by omega),
        count_worked_self, h0]
      simp [hc]
    have hrest : count_worked cal (nextUsable cal c - 1 + 1)
        (walk cal (nextUsable cal c) r) = r + 1 := by
      rw [show nextUsable cal c - 1 + 1 = nextUsable cal c by ring]
      exact ih (nextUsable cal c) hN
    rw [hcm, hrest]
    omega

/-- A not-worked start date can be dropped from the count: everything before
the next worked date contributes nothing. -/
lemma count_skip (cal : WorkCalendar) (hne : cal.work_days ≠ ∅) (c b : Int)
    (hc : counts_as_worked cal c = false) (hb : nextUsable cal c ≤ b) :
    count_worked cal c b = count_worked cal (nextUsable cal c) b := by
  obtain ⟨hlt, hN, hmin⟩ := nextUsable_spec cal hne c
  rw [count_worked_split cal c (nextUsable cal c - 1) b (by omega) (by omega)]
  have h0 : count_worked cal c (nextUsable cal c - 1) = 0 := by
    refine count_worked_none cal _ _ (fun x hx1 hx2 => ?_)
    rcases eq_or_lt_of_le hx1 with h | h
    · rwa [← h]
    · exact hmin x h (by omega)
  rw [h0, show nextUsable cal c - 1 + 1 = nextUsable cal c by ring]
  omega

/-- The Boolean per-date condition agrees with the spec's description of a
worked date. -/
lemma counts_as_worked_iff (cal : WorkCalendar) (d : Int) :
    counts_as_worked cal d = true ↔
      (weekday d ∈ cal.work_days ∧ d ∉ cal.holidays) := by
  simp [counts_as_worked, is_work_day, is_holiday]

/-- The loop body of `work_days_between` counts the worked dates of the
half-open range it traverses. -/
lemma countFrom_eq_card (cal : WorkCalendar) :
    ∀ (n : Nat) (d : Int),
      countFrom cal d n =
        (((Finset.Ico d (d + (n : Int))).filter
          (fun x => counts_as_worked cal x = true)).card : Int) := by
  intro n
  induction n with
  | zero =>
    intro d
    simp [countFrom]
  | succ n ih =>
    intro d
    have hsplit : Finset.Ico d (d + ((n + 1 : Nat) : Int)) =
        insert d (Finset.Ico (d + 1) ((d + 1) + (n : Int))) := by
      ext x
      simp only [Finset.mem_Ico, Finset.mem_insert]
      omega
    rw [show countFrom cal d (n + 1) =
        (if counts_as_worked cal d then 1 else 0) + countFrom cal (d + 1) n
        from rfl]
    rw [ih (d + 1), hsplit, Finset.filter_insert]
    by_cases h : counts_as_worked cal d = true
    · rw [if_pos h, if_pos h, Finset.card_insert_of_not_mem (by
        simp only [Finset.mem_filter, Finset.mem_Ico]
        omega)]
      push_cast
      ring
    · rw [if_neg h, if_neg h]
      omega

/-- The query `work_days_between` counts the worked dates of the inclusive
range. -/
lemma work_days_between_eq_count (cal : WorkCalendar) (s e : Int) :
    work_days_between cal s e = (count_worked cal s e : Int) := by
  rw [work_days_between, countFrom_eq_card cal ((e + 1 - s).toNat) s]
  by_cases h : s ≤ e + 1
  · have hIcc : Finset.Ico s (s + (((e + 1 - s).toNat : Nat) : Int)) =
        Finset.Icc s e := by
      ext x
      simp only [Finset.mem_Ico, Finset.mem_Icc]
      omega
    rw [hIcc]
    rfl
  · have h0 : ((e + 1 - s).toNat : Nat) = 0 := by omega
    have hIcc : Finset.Icc s e = (∅ : Finset Int) := by
      ext x
      simp only [Finset.mem_Icc, Finset.not_mem_empty, iff_false]
      omega
    rw [h0, count_worked, hIcc]
    simp

/-- The helper count agrees with the spec-side count. -/
lemma count_worked_eq_spec (cal : WorkCalendar) (a b : Int) :
    count_worked cal a b = spec_work_day_count cal a b := by
  rw [count_worked, spec_work_day_count]
  congr 1
  exact Finset.filter_congr (fun x _ => by rw [counts_as_worked_iff])

/-- Unfolding of `compute_end_date` on the success path. -/
lemma compute_end_date_eq (cal : WorkCalendar) (d n : Int)
    (hn : ¬ n < 0) (hne : cal.work_days ≠ ∅) :
    compute_end_date cal d n =
      .ok (walk cal d ((if counts_as_worked cal d then n - 1 else n).toNat),
        walk cal d ((if counts_as_worked cal d then n - 1 else n).toNat) - d) := by
  simp only [compute_end_date]
  rw [if_neg hn, if_neg hne]

/-- Inversion of a successful `compute_end_date`. -/
lemma compute_end_date_ok_inv (cal : WorkCalendar) (d n e s : Int)
    (h : compute_end_date cal d n = .ok (e, s)) :
    0 ≤ n ∧ cal.work_days ≠ ∅ ∧
      e = walk cal d ((if counts_as_worked cal d then n - 1 else n).toNat) ∧
      s = e - d := by
  by_cases hn : n < 0
  · rw [compute_end_date, if_pos hn] at h
    exact absurd h (by simp)
  by_cases hne : cal.work_days = ∅
  · rw [compute_end_date, if_neg hn, if_pos hne] at h
    exact absurd h (by simp)
  · rw [compute_end_date_eq cal d n hn hne] at h
    simp only [Except.ok.injEq, Prod.mk.injEq] at h
    obtain ⟨h1, h2⟩ := h
    exact ⟨by omega, hne, h1.symm, by omega⟩

/-- C1: for every calendar and every pair of dates, `work_days_between` equals
the number of dates `d` with `start ≤ d ≤ end` (inclusive both ends) whose
weekday is in `work_days` and which are not holidays; in particular, when
`end < start` the result is 0 (a defined success, not an error). -/
theorem claim_C1 (cal : WorkCalendar) (s e : Int) :
    work_days_between cal s e = (spec_work_day_count cal s e : Int) ∧
      (e < s → work_days_between cal s e = 0) := by
  have h1 := work_days_between_eq_count cal s e
  have h2 := count_worked_eq_spec cal s e
  constructor
  · rw [h1, h2]
  · intro hlt
    have h0 : count_worked cal s e = 0 := by
      rw [count_worked]
      have hI : Finset.Icc s e = (∅ : Finset Int) := by
        ext x
        simp only [Finset.mem_Icc, Finset.not_mem_empty, iff_false]
        omega
      rw [hI]
      simp
    rw [h1, h0]
    rfl

/-- Witness for C1 at concrete input: an inverted range counts zero. -/
theorem claim_C1_witness : work_days_between WorkCalendar.new 3 2 = 0 :=
  (claim_C1 WorkCalendar.new 3 2).2 (by decide)

/-- C2: with a non-empty work-day set, a count of zero always succeeds and
returns the start date itself with a zero calendar span, whether or not the
start date is a work day or a holiday. -/
theorem claim_C2 (cal : WorkCalendar) (d : Int) (hne : cal.work_days ≠ ∅) :
    compute_end_date cal d 0 = .ok (d, 0) := by
  rw [compute_end_date_eq cal d 0 (by omega) hne]
  have h0 : (if counts_as_worked cal d then (0 : Int) - 1 else 0).toNat = 0 := by
    split <;> omega
  rw [h0]
  simp [walk]

/-- Witness for C2 at concrete input. -/
theorem claim_C2_witness : compute_end_date WorkCalendar.new 0 0 = .ok (0, 0) :=
  claim_C2 WorkCalendar.new 0 (by decide)

/-- C7: `compute_end_date` errors exactly on a negative count (checked first,
with message "days_worked must be non-negative") or an empty work-day set
(message "No work days defined"); for every non-negative count with a
non-empty work-day set it succeeds. -/
theorem claim_C7 (cal : WorkCalendar) (d n : Int) :
    (n < 0 →
      compute_end_date cal d n = .error "days_worked must be non-negative") ∧
    (0 ≤ n → cal.work_days = ∅ →
      compute_end_date cal d n = .error "No work days defined") ∧
    (0 ≤ n → cal.work_days ≠ ∅ → ∃ p, compute_end_date cal d n = .ok p) := by
  refine ⟨?_, ?_, ?_⟩
  · intro hn
    rw [compute_end_date, if_pos hn]
  · intro hn hempty
    rw [compute_end_date, if_neg (by omega), if_pos hempty]
  · intro hn hne
    exact ⟨_, compute_end_date_eq cal d n (by omega) hne⟩

/-- Witness for C7 at concrete inputs: each error case and the success case. -/
theorem claim_C7_witness :
    compute_end_date WorkCalendar.new 0 (-1) =
        .error "days_worked must be non-negative" ∧
      compute_end_date (⟨∅, ∅⟩ : WorkCalendar) 0 3 =
        .error "No work days defined" ∧
      ∃ p, compute_end_date WorkCalendar.new 0 3 = .ok p :=
  ⟨(claim_C7 WorkCalendar.new 0 (-1)).1 (by decide),
   (claim_C7 ⟨∅, ∅⟩ 0 3).2.1 (by decide) rfl,
   (claim_C7 WorkCalendar.new 0 3).2.2 (by decide) (by decide)⟩

/-- C3 counterexample: on the default calendar, day number 4 is a Monday (a
work day, not a holiday), and a count of 1 consumes the start date itself,
so the end date equals the start date although the count is not 0.  This
refutes "equality only at n = 0". -/
theorem claim_C3_counterexample :
    compute_end_date WorkCalendar.new 4 1 = .ok (4, 0) ∧
      weekday 4 = Weekday.mon ∧ (1 : Int) ≠ 0 := by
  decide

/-- C3 (amended): for a non-negative count and non-empty work days, the end
date never precedes the start date, and it equals the start date exactly
when the count is 0, or the count is 1 and the start date itself counts as
worked. -/
theorem claim_C3_amended (cal : WorkCalendar) (d n : Int)
    (hn : 0 ≤ n) (hne : cal.work_days ≠ ∅) (e s : Int)
    (h : compute_end_date cal d n = .ok (e, s)) :
    d ≤ e ∧ (e = d ↔ (n = 0 ∨ (n = 1 ∧ counts_as_worked cal d = true))) := by
  obtain ⟨-, -, he, -⟩ := compute_end_date_ok_inv cal d n e s h
  subst he
  refine ⟨walk_ge cal hne _ d, ?_, ?_⟩
  · intro heq
    by_cases hr1 : 1 ≤ (if counts_as_worked cal d then n - 1 else n).toNat
    · have := walk_gt cal hne _ d hr1
      omega
    · by_cases hc : counts_as_worked cal d = true
      · rw [if_pos hc] at hr1
        rcases (by omega : n = 0 ∨ n = 1) with h0 | h0
        · exact Or.inl h0
        · exact Or.inr ⟨h0, hc⟩
      · rw [if_neg hc] at hr1
        exact Or.inl (by omega)
  · rintro (rfl | ⟨rfl, hc⟩)
    · have h0 : (if counts_as_worked cal d then (0 : Int) - 1 else 0).toNat = 0 := by
        split <;> omega
      rw [h0]
      simp [walk]
    · rw [if_pos hc]
      simp [walk]

/-- Witness for the amended C3 at concrete input: the boundary case count 1
with a worked start date. -/
theorem claim_C3_witness :
    (4 : Int) ≤ 4 ∧ ((4 : Int) = 4 ↔
      ((1 : Int) = 0 ∨ ((1 : Int) = 1 ∧
        counts_as_worked WorkCalendar.new 4 = true))) :=
  claim_C3_amended WorkCalendar.new 4 1 (by decide) (by decide) 4 0 (by decide)

/-- C8: on a fixed calendar with non-empty work days and a fixed start date,
the end date is monotone in the (non-negative) work-day count. -/
theorem claim_C8 (cal : WorkCalendar) (d n1 n2 : Int)
    (_hn1 : 0 ≤ n1) (h12 : n1 ≤ n2) (hne : cal.work_days ≠ ∅)
    (e1 s1 e2 s2 : Int)
    (h1 : compute_end_date cal d n1 = .ok (e1, s1))
    (h2 : compute_end_date cal d n2 = .ok (e2, s2)) :
    e1 ≤ e2 := by
  obtain ⟨-, -, he1, -⟩ := compute_end_date_ok_inv cal d n1 e1 s1 h1
  obtain ⟨-, -, he2, -⟩ := compute_end_date_ok_inv cal d n2 e2 s2 h2
  subst he1
  subst he2
  have hr : (if counts_as_worked cal d then n1 - 1 else n1).toNat ≤
      (if counts_as_worked cal d then n2 - 1 else n2).toNat := by
    by_cases hc : counts_as_worked cal d = true
    · rw [if_pos hc, if_pos hc]
      omega
    · rw [if_neg hc, if_neg hc]
      omega
  obtain ⟨k, hk⟩ : ∃ k, (if counts_as_worked cal d then n2 - 1 else n2).toNat =
      (if counts_as_worked cal d then n1 - 1 else n1).toNat + k :=
    ⟨(if counts_as_worked cal d then n2 - 1 else n2).toNat -
      (if counts_as_worked cal d then n1 - 1 else n1).toNat, by omega⟩
  rw [hk]
  exact walk_mono cal hne _ k d

/-- Witness for C8 at concrete input: counts 1 and 2 from a Monday. -/
theorem claim_C8_witness : (4 : Int) ≤ 5 :=
  claim_C8 WorkCalendar.new 4 1 2 (by decide) (by decide) (by decide)
    4 0 5 1 (by decide) (by decide)

/-- C10: for every count of at least 1 on which `compute_end_date` succeeds,
the returned end date itself counts as worked, `work_days_between` from the
start to the end date gives back exactly the count, and the returned span
is the end date minus the start date in whole days. -/
theorem claim_C10 (cal : WorkCalendar) (d n : Int) (hn : 1 ≤ n) (e s : Int)
    (h : compute_end_date cal d n = .ok (e, s)) :
    counts_as_worked cal e = true ∧ work_days_between cal d e = n ∧
      s = e - d := by
  obtain ⟨hn0, hne, he, hs⟩ := compute_end_date_ok_inv cal d n e s h
  have hsd : s = e - d := hs
  subst he
  refine ⟨?_, ?_, hsd⟩
  · by_cases hc : counts_as_worked cal d = true
    · exact walk_worked cal hne _ d hc
    · rw [if_neg hc]
      obtain ⟨r', hr'⟩ : ∃ r', n.toNat = r' + 1 := ⟨n.toNat - 1, by omega⟩
      rw [hr', show walk cal d (r' + 1) =
        walk cal (nextUsable cal d) r' from rfl]
      exact walk_worked cal hne r' _ (nextUsable_spec cal hne d).2.1
  · rw [work_days_between_eq_count]
    by_cases hc : counts_as_worked cal d = true
    · rw [if_pos hc, count_walk cal hne ((n - 1).toNat) d hc]
      omega
    · have hcf : counts_as_worked cal d = false := by simpa using hc
      rw [if_neg hc]
      obtain ⟨r', hr'⟩ : ∃ r', n.toNat = r' + 1 := ⟨n.toNat - 1, by omega⟩
      rw [hr', show walk cal d (r' + 1) =
        walk cal (nextUsable cal d) r' from rfl]
      rw [count_skip cal hne d _ hcf (walk_ge cal hne r' (nextUsable cal d))]
      rw [count_walk cal hne r' _ (nextUsable_spec cal hne d).2.1]
      omega

/-- Witness for C10 at concrete input: two work days from a Monday end on the
Tuesday, which is worked, counts back to 2, and spans 1 calendar day. -/
theorem claim_C10_witness :
    counts_as_worked WorkCalendar.new 5 = true ∧
      work_days_between WorkCalendar.new 4 5 = 2 ∧ (1 : Int) = 5 - 4 :=
  claim_C10 WorkCalendar.new 4 2 (by decide) 5 1 (by decide)

/-- C4: `set_work_days` errors (with the calendar unchanged) exactly when
every comma-separated item of the input fails to parse after trimming; on
success it replaces `work_days` with exactly the set of items that parsed,
leaving the holidays untouched. -/
theorem claim_C4 (cal : WorkCalendar) (s : String) :
    ((set_work_days cal s).1 = .error "No valid work days provided" ↔
      ∀ piece ∈ splitOnChar ',' s.data, parse_weekday (trim ⟨piece⟩) = none) ∧
    ((∀ piece ∈ splitOnChar ',' s.data, parse_weekday (trim ⟨piece⟩) = none) →
      (set_work_days cal s).2 = cal) ∧
    ((¬ ∀ piece ∈ splitOnChar ',' s.data,
        parse_weekday (trim ⟨piece⟩) = none) →
      (set_work_days cal s).1 = .ok () ∧
      (set_work_days cal s).2.work_days =
        ((splitOnChar ',' s.data).filterMap
          (fun piece => parse_weekday (trim ⟨piece⟩))).toFinset ∧
      (set_work_days cal s).2.holidays = cal.holidays) := by
  have hkey : ((splitOnChar ',' s.data).filterMap
      (fun piece => parse_weekday (trim ⟨piece⟩))).toFinset = (∅ : Finset Weekday) ↔
      ∀ piece ∈ splitOnChar ',' s.data, parse_weekday (trim ⟨piece⟩) = none := by
    rw [List.toFinset_eq_empty_iff, List.filterMap_eq_nil_iff]
  by_cases hE : ((splitOnChar ',' s.data).filterMap
      (fun piece => parse_weekday (trim ⟨piece⟩))).toFinset = (∅ : Finset Weekday)
  · have hall := hkey.mp hE
    refine ⟨⟨fun _ => hall, fun _ => ?_⟩, fun _ => ?_, fun hcon => absurd hall hcon⟩
    · simp [set_work_days, hE]
    · simp [set_work_days, hE]
  · have hnall : ¬ ∀ piece ∈ splitOnChar ',' s.data,
        parse_weekday (trim ⟨piece⟩) = none :=
      fun hall => hE (hkey.mpr hall)
    refine ⟨⟨fun herr => ?_, fun hall => absurd hall hnall⟩,
      fun hall => absurd hall hnall, fun _ => ⟨?_, ?_, ?_⟩⟩
    · exfalso
      simp [set_work_days, hE] at herr
    · simp [set_work_days, hE]
    · simp [set_work_days, hE]
    · simp [set_work_days, hE]

/-- Witness for C4 at concrete inputs: an all-invalid input leaves the
calendar unchanged, a valid input succeeds. -/
theorem claim_C4_witness :
    (set_work_days WorkCalendar.new "xyz").2 = WorkCalendar.new ∧
      (set_work_days WorkCalendar.new "Mon").1 = .ok () :=
  ⟨(claim_C4 WorkCalendar.new "xyz").2.1 (by decide),
   ((claim_C4 WorkCalendar.new "Mon").2.2 (by decide)).1⟩

/-- C5 counterexample: starting from the default calendar, five completed
`remove_work_day` operations (each a public operation with no failure mode)
leave the work-day set empty, refuting the claimed non-emptiness invariant
over all public operations. -/
theorem claim_C5_counterexample :
    (remove_work_day (remove_work_day (remove_work_day (remove_work_day
      (remove_work_day WorkCalendar.new Weekday.mon) Weekday.tue) Weekday.wed)
      Weekday.thu) Weekday.fri).work_days = (∅ : Finset Weekday) := by
  decide

/-- C5 (amended): the bulk-set operation alone upholds the non-emptiness
guarantee: `set_work_days` either fails leaving the calendar un-mutated, or
succeeds with a non-empty replacement set; non-emptiness is not an
invariant of the other public operations (`remove_work_day` and
configuration conversion can leave the set empty). -/
theorem claim_C5_amended (cal : WorkCalendar) (s : String) :
    ((set_work_days cal s).1 = .error "No valid work days provided" ∧
      (set_work_days cal s).2 = cal) ∨
    ((set_work_days cal s).1 = .ok () ∧
      (set_work_days cal s).2.work_days ≠ ∅) := by
  by_cases hE : ((splitOnChar ',' s.data).filterMap
      (fun piece => parse_weekday (trim ⟨piece⟩))).toFinset = (∅ : Finset Weekday)
  · left
    constructor <;> simp [set_work_days, hE]
  · right
    constructor <;> simp [set_work_days, hE]

/-- C6: configuration conversion with a present, non-empty, entirely
unparseable work-day list yields an empty work-day set (and, being a total
conversion, succeeds rather than erroring, unlike `set_work_days`); a
missing work-day field keeps the default Monday-Friday set, and a missing
holiday field keeps the empty holiday set. -/
theorem claim_C6 (cfg : WorkCalendarConfig) :
    (∀ l, cfg.work_days = some l → l ≠ [] →
      (∀ x ∈ l, parse_weekday x = none) →
      (from_config cfg).work_days = ∅) ∧
    (cfg.work_days = none →
      (from_config cfg).work_days = WorkCalendar.new.work_days) ∧
    (cfg.holidays = none → (from_config cfg).holidays = ∅) := by
  refine ⟨?_, ?_, ?_⟩
  · intro l hl _ hall
    have hfm : l.filterMap (fun day => parse_weekday day) = [] :=
      List.filterMap_eq_nil_iff.mpr hall
    cases hh : cfg.holidays <;> simp [from_config, hl, hh, hfm]
  · intro hl
    cases hh : cfg.holidays <;> simp [from_config, hl, hh]
  · intro hh
    cases hw : cfg.work_days <;>
      simp [from_config, hw, hh, WorkCalendar.new]

/-- Witness for C6 at concrete input: a configuration whose only work-day
entry is unparseable and whose holiday field is missing. -/
theorem claim_C6_witness :
    (from_config ⟨some ["xx"], none⟩).work_days = ∅ ∧
      (from_config ⟨some ["xx"], none⟩).holidays = ∅ :=
  ⟨(claim_C6 ⟨some ["xx"], none⟩).1 ["xx"] rfl (by decide) (by decide),
   (claim_C6 ⟨some ["xx"], none⟩).2.2 rfl⟩

/-- C9: `parse_weekday` is total and equals first-match lookup of the
lower-cased input in the spec's table of the 14 recognized tokens; every
input whose lower-casing is not in the table (empty string, misspellings,
numbers) maps to `none`. -/
theorem claim_C9 (s : String) :
    parse_weekday s = lookup_token (to_lowercase s) weekday_tokens := by
  simp only [parse_weekday, weekday_tokens, lookup_token]
  by_cases h1 : to_lowercase s = "monday"
  · rw [h1]; decide
  by_cases h2 : to_lowercase s = "mon"
  · rw [h2]; decide
  by_cases h3 : to_lowercase s = "tuesday"
  · rw [h3]; decide
  by_cases h4 : to_lowercase s = "tue"
  · rw [h4]; decide
  by_cases h5 : to_lowercase s = "wednesday"
  · rw [h5]; decide
  by_cases h6 : to_lowercase s = "wed"
  · rw [h6]; decide
  by_cases h7 : to_lowercase s = "thursday"
  · rw [h7]; decide
  by_cases h8 : to_lowercase s = "thu"
  · rw [h8]; decide
  by_cases h9 : to_lowercase s = "friday"
  · rw [h9]; decide
  by_cases h10 : to_lowercase s = "fri"
  · rw [h10]; decide
  by_cases h11 : to_lowercase s = "saturday"
  · rw [h11]; decide
  by_cases h12 : to_lowercase s = "sat"
  · rw [h12]; decide
  by_cases h13 : to_lowercase s = "sunday"
  · rw [h13]; decide
  by_cases h14 : to_lowercase s = "sun"
  · rw [h14]; decide
  simp [h1, h2, h3, h4, h5, h6, h7, h8, h9, h10, h11, h12, h13, h14]

-- Sanity checks mirroring the repository's unit tests (2023-08-21 was a
-- Monday; spans are calendar days).

example : weekday (days_from_civil 2023 8 21) = Weekday.mon := by decide

example : compute_end_date WorkCalendar.new (days_from_civil 2023 8 21) 5 =
    .ok (days_from_civil 2023 8 25, 4) := by decide

example : compute_end_date WorkCalendar.new (days_from_civil 2023 8 18) 5 =
    .ok (days_from_civil 2023 8 24, 6) := by decide

example :
    compute_end_date (add_holiday WorkCalendar.new (days_from_civil 2023 8 23))
      (days_from_civil 2023 8 21) 5 = .ok (days_from_civil 2023 8 28, 7) := by
  decide

example : work_days_between WorkCalendar.new (days_from_civil 2023 8 21)
    (days_from_civil 2023 8 27) = 5 := by decide

example :
    work_days_between (add_holiday WorkCalendar.new (days_from_civil 2023 8 23))
      (days_from_civil 2023 8 21) (days_from_civil 2023 8 27) = 4 := by decide

example :
    compute_end_date (set_work_days WorkCalendar.new "Monday,Wednesday,Friday").2
      (days_from_civil 2023 8 21) 5 = .ok (days_from_civil 2023 8 30, 9) := by
  decide

example : parse_weekday "MONDAY" = some Weekday.mon := by decide

example : parse_weekday "" = none := by decide

example : parse_date "2023-12-25" = some (days_from_civil 2023 12 25) := by
  decide

example : parse_date "2023-13-01" = none := by decide

end Workdays
